import Mathlib

/-!
Shallow embedding of the node-editing core of the repository
(src/src/features/modals/NodeModal/index.tsx): the row normalizer
(normalizeNodeData), the path formatter (jsonPathToString), the
path-addressed updater (updateJsonAtPath) and the value-coercion logic
inlined in handleSave.  JavaScript values are modelled by the inductive
type Json below; JavaScript numbers are modelled by JsNum, where finite
doubles are represented as exact rationals (double rounding and overflow
to infinity are outside the model).
-/

/-- A JavaScript number: NaN, the two infinities, or a finite value
(modelled exactly as a rational). -/
inductive JsNum where
  | nan : JsNum
  | posInf : JsNum
  | negInf : JsNum
  | fin (q : ℚ) : JsNum
deriving DecidableEq, Repr

/-- A JavaScript value as it flows through the node-editing code: the six
JSON shapes plus undefined, which arises from missing-property reads inside
updateJsonAtPath.  Objects are insertion-ordered association lists. -/
inductive Json where
  | undef : Json
  | null : Json
  | boolean (b : Bool) : Json
  | number (n : JsNum) : Json
  | string (s : String) : Json
  | arr (items : List Json) : Json
  | obj (fields : List (String × Json)) : Json

/-- First-match lookup of a property in an insertion-ordered object. -/
def lookupKey {α : Type} : List (String × α) → String → Option α
  | [], _ => none
  | (k', v) :: rest, k => if k' = k then some v else lookupKey rest k

/-- JavaScript property assignment on an insertion-ordered object: an
existing key keeps its position and gets the new value, a new key is
appended at the end. -/
def writeKey {α : Type} : List (String × α) → String → α → List (String × α)
  | [], k, v => [(k, v)]
  | (k', v') :: rest, k, v =>
    if k' = k then (k, v) :: rest else (k', v') :: writeKey rest k v

/-- Decimal digit test. -/
def isDigitChar (c : Char) : Bool := '0' ≤ c && c ≤ '9'

/-- Value of a decimal digit list, most significant first. -/
def digitsToNat (ds : List Char) : Nat :=
  ds.foldl (fun a c => a * 10 + (c.toNat - 48)) 0

/-- The set of characters String.prototype.trim removes (ECMAScript
WhiteSpace and LineTerminator). -/
def isJsWhitespace (c : Char) : Bool :=
  c = ' ' || c = '\t' || c = '\n' || c = '\r' ||
  c.toNat = 11 || c.toNat = 12 || c.toNat = 0xA0 || c.toNat = 0xFEFF ||
  c.toNat = 0x1680 || (0x2000 ≤ c.toNat && c.toNat ≤ 0x200A) ||
  c.toNat = 0x2028 || c.toNat = 0x2029 || c.toNat = 0x202F ||
  c.toNat = 0x205F || c.toNat = 0x3000

/-- String.prototype.trim. -/
def jsTrim (s : String) : String :=
  ⟨((s.toList.dropWhile isJsWhitespace).reverse.dropWhile isJsWhitespace).reverse⟩

/-- s.startsWith(c) for a one-character argument. -/
def strStartsWithChar (s : String) (c : Char) : Bool :=
  match s.toList with
  | [] => false
  | a :: _ => a = c

/-- s.endsWith(c) for a one-character argument. -/
def strEndsWithChar (s : String) (c : Char) : Bool :=
  match s.toList.reverse with
  | [] => false
  | a :: _ => a = c

/-- 10^n as a rational. -/
def pow10 (n : Nat) : ℚ := (10 : ℚ) ^ n

/-- The rational value of a decimal literal: optional minus sign, integer
digits, fraction digits, and a base-10 exponent. -/
def decToRat (neg : Bool) (intD fracD : List Char) (e : Int) : ℚ :=
  let m : ℚ := (digitsToNat (intD ++ fracD) : ℚ)
  let e2 : Int := e - fracD.length
  let mag : ℚ := if 0 ≤ e2 then m * pow10 e2.toNat else m / pow10 (-e2).toNat
  if neg then -mag else mag

/-- Hexadecimal digit value. -/
def hexVal (c : Char) : Option Nat :=
  if '0' ≤ c && c ≤ '9' then some (c.toNat - 48)
  else if 'a' ≤ c && c ≤ 'f' then some (c.toNat - 87)
  else if 'A' ≤ c && c ≤ 'F' then some (c.toNat - 55)
  else none

/-- Value of a digit list in an arbitrary base, where digitOf gives each
digit's value; none if the list is empty or holds a non-digit. -/
def radixToNat (digitOf : Char → Option Nat) (base : Nat) (ds : List Char) : Option Nat :=
  match ds with
  | [] => none
  | _ =>
    ds.foldl (fun acc c =>
      match acc, digitOf c with
      | some a, some d => some (a * base + d)
      | _, _ => none) (some 0)

/-- Exponent part of a StrDecimalLiteral: either nothing, or e/E with an
optional sign and at least one digit, consuming the whole remainder. -/
def parseExpPart : List Char → Option Int
  | [] => some 0
  | c :: rest =>
    if c = 'e' || c = 'E' then
      let (neg, ds) :=
        match rest with
        | '+' :: r => (false, r)
        | '-' :: r => (true, r)
        | r => (false, r)
      if ds ≠ [] && ds.all isDigitChar then
        some (if neg then -(digitsToNat ds : Int) else (digitsToNat ds : Int))
      else none
    else none

/-- ECMAScript StrUnsignedDecimalLiteral (without the Infinity case):
digits, an optional dot with optional further digits, and an optional
exponent; the whole input must be consumed. -/
def parseUnsignedDec (cs : List Char) : Option ℚ :=
  let (intD, r1) := cs.span isDigitChar
  match r1 with
  | '.' :: r2 =>
    let (fracD, r3) := r2.span isDigitChar
    if intD = [] && fracD = [] then none
    else (parseExpPart r3).map fun e => decToRat false intD fracD e
  | r =>
    if intD = [] then none
    else (parseExpPart r).map fun e => decToRat false intD [] e

/-- ECMAScript ToNumber applied to a string, as performed by the
Number(...) call in handleSave: trim, empty means zero, unsigned radix
literals, otherwise an optionally signed decimal literal or Infinity;
anything else is NaN.  Finite values are exact rationals (double rounding
is outside the model). -/
def jsStrToNum (s : String) : JsNum :=
  match (jsTrim s).toList with
  | [] => .fin 0
  | '0' :: 'x' :: ds => match radixToNat hexVal 16 ds with
    | some n => .fin n | none => .nan
  | '0' :: 'X' :: ds => match radixToNat hexVal 16 ds with
    | some n => .fin n | none => .nan
  | '0' :: 'o' :: ds =>
    match radixToNat (fun c => if '0' ≤ c && c ≤ '7' then some (c.toNat - 48) else none) 8 ds with
    | some n => .fin n | none => .nan
  | '0' :: 'O' :: ds =>
    match radixToNat (fun c => if '0' ≤ c && c ≤ '7' then some (c.toNat - 48) else none) 8 ds with
    | some n => .fin n | none => .nan
  | '0' :: 'b' :: ds =>
    match radixToNat (fun c => if c = '0' || c = '1' then some (c.toNat - 48) else none) 2 ds with
    | some n => .fin n | none => .nan
  | '0' :: 'B' :: ds =>
    match radixToNat (fun c => if c = '0' || c = '1' then some (c.toNat - 48) else none) 2 ds with
    | some n => .fin n | none => .nan
  | cs =>
    let (neg, body) :=
      match cs with
      | '+' :: r => (false, r)
      | '-' :: r => (true, r)
      | r => (false, r)
    if body = "Infinity".toList then (if neg then .negInf else .posInf)
    else
      match parseUnsignedDec body with
      | some q => .fin (if neg then -q else q)
      | none => .nan

/-! ### JSON.parse

A model of the strict JSON grammar accepted by JSON.parse: RFC 8259
values, double-quoted strings with escapes, numbers without leading plus
or leading zeros, and whitespace restricted to space, tab, line feed and
carriage return.  A \uXXXX escape is mapped through Char.ofNat (surrogate
pairs are outside the model). -/

/-- JSON whitespace. -/
def isJsonWs (c : Char) : Bool := c = ' ' || c = '\t' || c = '\n' || c = '\r'

/-- Skip JSON whitespace. -/
def skipJsonWs (cs : List Char) : List Char := cs.dropWhile isJsonWs

/-- Translation of a JSON escape character to the character it denotes;
for u the four following hex digits are consumed.  Returns the decoded
character and the rest of the input. -/
def decodeJsonEscape : Char → List Char → Option (Char × List Char)
  | '"', r => some ('"', r)
  | '\\', r => some ('\\', r)
  | '/', r => some ('/', r)
  | 'b', r => some ('\x08', r)
  | 'f', r => some ('\x0c', r)
  | 'n', r => some ('\n', r)
  | 'r', r => some ('\r', r)
  | 't', r => some ('\t', r)
  | 'u', a :: b :: c :: d :: r =>
    match hexVal a, hexVal b, hexVal c, hexVal d with
    | some ha, some hb, some hc, some hd =>
      some (Char.ofNat (((ha * 16 + hb) * 16 + hc) * 16 + hd), r)
    | _, _, _, _ => none
  | _, _ => none

/-- Parse the body of a JSON string literal, the opening quote already
consumed; returns the decoded character list and the remainder.  Raw
control characters are rejected, as JSON.parse does.  The fuel argument
only bounds recursion depth; one character is consumed per step, so any
fuel of at least the input length is enough. -/
def parseJsonStringAux : Nat → List Char → Option (List Char × List Char)
  | 0, _ => none
  | _, [] => none
  | _ + 1, '"' :: rest => some ([], rest)
  | fuel + 1, '\\' :: e :: rest =>
    match decodeJsonEscape e rest with
    | some (c, r) =>
      match parseJsonStringAux fuel r with
      | some (s, r') => some (c :: s, r')
      | none => none
    | none => none
  | fuel + 1, c :: rest =>
    if c.toNat < 0x20 then none
    else
      match parseJsonStringAux fuel rest with
      | some (s, r') => some (c :: s, r')
      | none => none

/-- Parse a JSON string literal body with sufficient fuel. -/
def parseJsonString (cs : List Char) : Option (String × List Char) :=
  match parseJsonStringAux (cs.length + 1) cs with
  | some (s, r) => some (⟨s⟩, r)
  | none => none

/-- Parse a JSON number literal: optional minus, an integer part that is
zero or starts with a nonzero digit, an optional fraction, an optional
exponent.  Returns the value and the remainder. -/
def parseJsonNumber (cs : List Char) : Option (JsNum × List Char) :=
  let (neg, r0) := match cs with
    | '-' :: r => (true, r)
    | r => (false, r)
  let intPart : Option (List Char × List Char) :=
    match r0 with
    | '0' :: r1 => some (['0'], r1)
    | c :: _ =>
      if isDigitChar c && c ≠ '0' then
        let (ds, r1) := r0.span isDigitChar
        some (ds, r1)
      else none
    | [] => none
  match intPart with
  | none => none
  | some (intD, r1) =>
    let (fracD, r2) :=
      match r1 with
      | '.' :: rf =>
        let (ds, r') := rf.span isDigitChar
        if ds = [] then ([], r1) else (ds, r')
      | _ => ([], r1)
    let expPart : Option (Int × List Char) :=
      match r2 with
      | c :: re =>
        if c = 'e' || c = 'E' then
          let (eneg, rs) :=
            match re with
            | '+' :: r => (false, r)
            | '-' :: r => (true, r)
            | r => (false, r)
          let (eds, r') := rs.span isDigitChar
          if eds = [] then some (0, r2)
          else some ((if eneg then -(digitsToNat eds : Int) else (digitsToNat eds : Int)), r')
        else some (0, r2)
      | [] => some (0, r2)
    match expPart with
    | some (e, r3) => some (.fin (decToRat neg intD fracD e), r3)
    | none => none

mutual

/-- Parse one JSON value, leading whitespace allowed. -/
def parseJsonValue : Nat → List Char → Option (Json × List Char)
  | 0, _ => none
  | fuel + 1, cs =>
    match skipJsonWs cs with
    | '{' :: rest =>
      match skipJsonWs rest with
      | '}' :: rest2 => some (.obj [], rest2)
      | rest2 => parseJsonMembers fuel rest2 []
    | '[' :: rest =>
      match skipJsonWs rest with
      | ']' :: rest2 => some (.arr [], rest2)
      | rest2 => parseJsonElems fuel rest2 []
    | '"' :: rest =>
      match parseJsonString rest with
      | some (s, r) => some (.string s, r)
      | none => none
    | 't' :: 'r' :: 'u' :: 'e' :: rest => some (.boolean true, rest)
    | 'f' :: 'a' :: 'l' :: 's' :: 'e' :: rest => some (.boolean false, rest)
    | 'n' :: 'u' :: 'l' :: 'l' :: rest => some (.null, rest)
    | rest =>
      match parseJsonNumber rest with
      | some (n, r) => some (.number n, r)
      | none => none

/-- Parse the members of a non-empty JSON object, accumulating fields; a
duplicate key keeps its first position and takes the later value, as in
JavaScript. -/
def parseJsonMembers : Nat → List Char → List (String × Json) →
    Option (Json × List Char)
  | 0, _, _ => none
  | fuel + 1, cs, acc =>
    match skipJsonWs cs with
    | '"' :: rest =>
      match parseJsonString rest with
      | none => none
      | some (k, r1) =>
        match skipJsonWs r1 with
        | ':' :: r2 =>
          match parseJsonValue fuel r2 with
          | none => none
          | some (v, r3) =>
            match skipJsonWs r3 with
            | ',' :: r4 => parseJsonMembers fuel r4 (writeKey acc k v)
            | '}' :: r4 => some (.obj (writeKey acc k v), r4)
            | _ => none
        | _ => none
    | _ => none

/-- Parse the elements of a non-empty JSON array, accumulating items. -/
def parseJsonElems : Nat → List Char → List Json → Option (Json × List Char)
  | 0, _, _ => none
  | fuel + 1, cs, acc =>
    match parseJsonValue fuel cs with
    | none => none
    | some (v, r1) =>
      match skipJsonWs r1 with
      | ',' :: r2 => parseJsonElems fuel r2 (acc ++ [v])
      | ']' :: r2 => some (.arr (acc ++ [v]), r2)
      | _ => none

end

/-- JSON.parse: parse one value and require only whitespace after it;
none models a thrown SyntaxError. -/
def jsonParse (s : String) : Option Json :=
  match parseJsonValue (2 * s.toList.length + 2) s.toList with
  | some (v, rest) => if skipJsonWs rest = [] then some v else none
  | none => none

/-! ### JSON.stringify with a 2-space indent, and JavaScript string
coercion of values -/

/-- Decimal digit character. -/
def natDigitChar (n : Nat) : Char := Char.ofNat (48 + n)

/-- Fraction digits of r / d by repeated multiplication by ten; stops at
the fuel bound or when the remainder vanishes.  JavaScript prints the
shortest decimal that round-trips through the double; for the terminating
fractions produced here the result agrees, and the double-specific
exponent forms are outside the model. -/
def fracDigitsAux : Nat → Nat → Nat → List Char
  | 0, _, _ => []
  | fuel + 1, r, d =>
    if r = 0 then []
    else natDigitChar (r * 10 / d) :: fracDigitsAux fuel (r * 10 % d) d

/-- Decimal rendering of a finite JavaScript number. -/
def ratToString (q : ℚ) : String :=
  if q.den = 1 then toString q.num
  else
    (if q < 0 then "-" else "") ++ toString (q.num.natAbs / q.den) ++ "." ++
      ⟨fracDigitsAux 20 (q.num.natAbs % q.den) q.den⟩

/-- JSON.stringify rendering of a number: NaN and the infinities
serialize as null. -/
def jsNumToJsonString (n : JsNum) : String :=
  match n with
  | .fin q => ratToString q
  | _ => "null"

/-- String(n) for a JavaScript number. -/
def jsNumToDisplay (n : JsNum) : String :=
  match n with
  | .fin q => ratToString q
  | .nan => "NaN"
  | .posInf => "Infinity"
  | .negInf => "-Infinity"

/-- JSON string escaping of one character, as JSON.stringify performs
it: quote, backslash and control characters are escaped, everything else
is copied verbatim. -/
def escapeJsonChar (c : Char) : List Char :=
  if c = '"' then ['\\', '"']
  else if c = '\\' then ['\\', '\\']
  else if c = '\x08' then ['\\', 'b']
  else if c = '\x0c' then ['\\', 'f']
  else if c = '\n' then ['\\', 'n']
  else if c = '\r' then ['\\', 'r']
  else if c = '\t' then ['\\', 't']
  else if c.toNat < 0x20 then
    ['\\', 'u', '0', '0', natDigitChar (c.toNat / 16),
     (if c.toNat % 16 < 10 then natDigitChar (c.toNat % 16)
      else Char.ofNat (87 + c.toNat % 16))]
  else [c]

/-- A string as a JSON string literal. -/
def escapeJsonString (s : String) : String :=
  "\"" ++ ⟨(s.toList.map escapeJsonChar).flatten⟩ ++ "\""

/-- Indentation for nesting depth d under the 2-space gap. -/
def indentStr (d : Nat) : String := ⟨List.replicate (2 * d) ' '⟩

mutual

/-- JSON.stringify(v, null, 2) at nesting depth d; none models the
undefined result JSON.stringify returns for an undefined argument. -/
def stringifyVal : Json → Nat → Option String
  | .undef, _ => none
  | .null, _ => some "null"
  | .boolean b, _ => some (cond b "true" "false")
  | .number n, _ => some (jsNumToJsonString n)
  | .string s, _ => some (escapeJsonString s)
  | .arr xs, d =>
    let items := stringifyItems xs (d + 1)
    some (if items.isEmpty then "[]"
      else "[\n" ++
        String.intercalate ",\n" (items.map (fun it => indentStr (d + 1) ++ it)) ++
        "\n" ++ indentStr d ++ "]")
  | .obj fs, d =>
    let entries := stringifyFields fs (d + 1)
    some (if entries.isEmpty then "\x7b\x7d"
      else "\x7b\n" ++
        String.intercalate ",\n" (entries.map (fun it => indentStr (d + 1) ++ it)) ++
        "\n" ++ indentStr d ++ "\x7d")

/-- Array items at depth d; an undefined element serializes as null. -/
def stringifyItems : List Json → Nat → List String
  | [], _ => []
  | x :: rest, d =>
    (match stringifyVal x d with
     | some s => s
     | none => "null") :: stringifyItems rest d

/-- Object entries at depth d; a field with an undefined value is
omitted. -/
def stringifyFields : List (String × Json) → Nat → List String
  | [], _ => []
  | (k, v) :: rest, d =>
    match stringifyVal v d with
    | some s => (escapeJsonString k ++ ": " ++ s) :: stringifyFields rest d
    | none => stringifyFields rest d

end

mutual

/-- String(v): the JavaScript string coercion a template literal
performs. -/
def jsToDisplayString : Json → String
  | .undef => "undefined"
  | .null => "null"
  | .boolean b => cond b "true" "false"
  | .number n => jsNumToDisplay n
  | .string s => s
  | .arr xs => String.intercalate "," (displayList xs)
  | .obj _ => "[object Object]"

/-- Element strings for Array.prototype.join: null and undefined render
as the empty string. -/
def displayList : List Json → List String
  | [] => []
  | x :: rest =>
    (match x with
     | .undef => ""
     | .null => ""
     | v => jsToDisplayString v) :: displayList rest

end

/-! ### The four functions of the node-editing core -/

/-- One display row of the selected node, as handed over by the graph
view: an optional key, a value and the name of the value's shape. -/
structure DisplayRow where
  key : Option String
  value : Json
  type : String

/-- JavaScript truthiness of row.key: an absent key and the empty string
are both falsy. -/
def rowKeyTruthy (r : DisplayRow) : Bool :=
  match r.key with
  | some s => s ≠ ""
  | none => false

/-- One step of the fold normalizeNodeData performs: a row of type array
or object is skipped, and only a row with a truthy key is written. -/
def buildObjStep (acc : List (String × Json)) (r : DisplayRow) : List (String × Json) :=
  if r.type = "array" || r.type = "object" then acc
  else
    match r.key with
    | some k => if k = "" then acc else writeKey acc k r.value
    | none => acc

/-- The ordered mapping normalizeNodeData folds the rows into. -/
def buildObj (rows : List DisplayRow) : List (String × Json) :=
  rows.foldl buildObjStep []

/-- The rows the fold actually keeps. -/
def rowKept (r : DisplayRow) : Bool :=
  !(r.type = "array" || r.type = "object") && rowKeyTruthy r

/-- normalizeNodeData: the empty row list renders as the literal braces,
a single row with a falsy key renders as the template coercion of its
value, and everything else as the folded mapping pretty-printed by
JSON.stringify with a 2-space indent. -/
def normalizeNodeData (nodeRows : List DisplayRow) : String :=
  match nodeRows with
  | [] => "\x7b\x7d"
  | [r] =>
    if rowKeyTruthy r then (stringifyVal (Json.obj (buildObj [r])) 0).getD "undefined"
    else jsToDisplayString r.value
  | rows => (stringifyVal (Json.obj (buildObj rows)) 0).getD "undefined"

/-- One segment of a jsonc-parser JSONPath: a numeric array index or a
string object key.  Indices are modelled as integers; the source checks
index >= 0 explicitly. -/
inductive Seg where
  | idx (i : Int)
  | key (s : String)
deriving DecidableEq, Repr

/-- The string a segment contributes inside its brackets: a number is
coerced by the template literal, a string is wrapped in quotes with no
escaping. -/
def segToDisplay : Seg → String
  | .idx i => toString i
  | .key s => "\"" ++ s ++ "\""

/-- jsonPathToString: the root path renders as the dollar sign, any other
path as the dollar sign followed by the bracketed segments.  The
undefined-path case of the optional React prop is identified with the
empty path, which the source renders the same way. -/
def jsonPathToString (path : List Seg) : String :=
  match path with
  | [] => "$"
  | _ => "$[" ++ String.intercalate "][" (path.map segToDisplay) ++ "]"

/-- The canonical decimal form of an array index: nonempty digits with no
leading zero.  A property name of this form is an array index in
JavaScript; any other name is an ordinary property even when its numeric
value is in range. -/
def canonicalIndexNat (s : String) : Option Nat :=
  match s.toList with
  | [] => none
  | ['0'] => some 0
  | c :: rest =>
    if (c :: rest).all isDigitChar && c ≠ '0' then some (digitsToNat (c :: rest))
    else none

/-- Resolution of the source's array branch: the bounds test
index >= 0 && index < result.length together with where the assignment
lands.  An integer segment must be an in-range index.  A string segment
passes the numeric bounds test through ToNumber, but only its canonical
decimal form names an actual array index; a passing non-canonical name
creates a non-index property that JSON serialization never shows, so such
writes are modelled as no-ops on the document content. -/
def segIndexOnArr (len : Nat) : Seg → Option Nat
  | .idx i => if 0 ≤ i ∧ i < (len : Int) then some i.toNat else none
  | .key k =>
    match canonicalIndexNat k with
    | some j => if j < len then some j else none
    | none => none

/-- The property name the source's object branch writes: result[first]
coerces a numeric segment to its decimal string. -/
def segKeyOnObj : Seg → String
  | .idx i => toString i
  | .key s => s

/-- The spread { ...json } the source builds when json is not an array:
an object keeps its fields, a string spreads into index-keyed single
characters, and every other value gives an empty object. -/
def spreadFields : Json → List (String × Json)
  | .obj fs => fs
  | .string s => (s.toList.enum).map fun p => (toString p.1, Json.string ⟨[p.2]⟩)
  | _ => []

/-- updateJsonAtPath: an empty path returns the new value; otherwise the
current level is shallow-copied, and the first segment selects either an
in-range array slot (else the copy is returned unchanged) or an object
property (written unconditionally, the copy being an object for every
non-array input). -/
def updateJsonAtPath : Json → List Seg → Json → Json
  | _, [], newValue => newValue
  | json, first :: rest, newValue =>
    match json with
    | .arr xs =>
      match segIndexOnArr xs.length first with
      | some i =>
        match rest with
        | [] => .arr (xs.set i newValue)
        | _ => .arr (xs.set i (updateJsonAtPath (xs.getD i .undef) rest newValue))
      | none => .arr xs
    | _ =>
      let fields := spreadFields json
      let k := segKeyOnObj first
      match rest with
      | [] => .obj (writeKey fields k newValue)
      | _ =>
        .obj (writeKey fields k
          (updateJsonAtPath ((lookupKey fields k).getD .undef) rest newValue))

/-- The value a path addresses when every segment is in bounds and of the
shape its container expects: an integer index into an array, a present
string key of an object. -/
def getAtPath : Json → List Seg → Option Json
  | j, [] => some j
  | .arr xs, .idx i :: rest =>
    if 0 ≤ i then
      match xs[i.toNat]? with
      | some c => getAtPath c rest
      | none => none
    else none
  | .obj fs, .key k :: rest =>
    match lookupKey fs k with
    | some v => getAtPath v rest
    | none => none
  | _, _ :: _ => none

/-! ### Value coercion

The parse logic of handleSave: a full JSON.parse of the edited text,
and on failure a ladder over the trimmed text — quoted string, null,
true, false, number, verbatim string.  The quoted-string rung re-enters
JSON.parse, whose failure escapes the inner catch; the error constructor
models that thrown SyntaxError. -/

/-- coerce: the two-tier interpretation of edited text. -/
def coerce (text : String) : Except Unit Json :=
  match jsonParse text with
  | some v => .ok v
  | none =>
    let trimmed := jsTrim text
    if strStartsWithChar trimmed '"' && strEndsWithChar trimmed '"' then
      match jsonParse trimmed with
      | some v => .ok v
      | none => .error ()
    else if trimmed = "null" then .ok .null
    else if trimmed = "true" then .ok (.boolean true)
    else if trimmed = "false" then .ok (.boolean false)
    else if jsStrToNum trimmed ≠ .nan ∧ trimmed ≠ "" then
      .ok (.number (jsStrToNum trimmed))
    else .ok (.string trimmed)

/-! ### Structural sharing

To state the reference-identity contract of updateJsonAtPath, the same
algorithm is run over values whose containers carry an allocation
identity.  The spread copy allocates a fresh identity for the copied
level while its children keep theirs, exactly as the source's fresh array
or object literal does; a subtree of the input is shared with the output
precisely when it reappears with its identity intact. -/

/-- A JavaScript value whose arrays and objects carry an allocation
identity. -/
inductive HJson where
  | undef : HJson
  | null : HJson
  | boolean (b : Bool) : HJson
  | number (n : JsNum) : HJson
  | string (s : String) : HJson
  | arr (ident : Nat) (items : List HJson) : HJson
  | obj (ident : Nat) (fields : List (String × HJson)) : HJson

/-- The spread { ...json } on identity-carrying values; the fresh
identity of the copy is supplied by the caller. -/
def spreadFieldsT : HJson → List (String × HJson)
  | .obj _ fs => fs
  | .string s => (s.toList.enum).map fun p => (toString p.1, HJson.string ⟨[p.2]⟩)
  | _ => []

/-- updateJsonAtPath over identity-carrying values, threading a counter
of fresh identities: every level the source rebuilds gets a fresh
identity, every value it leaves in place keeps its own. -/
def updateT : HJson → List Seg → HJson → Nat → HJson × Nat
  | _, [], v, c => (v, c)
  | json, first :: rest, v, c =>
    match json with
    | .arr _ xs =>
      match segIndexOnArr xs.length first with
      | some i =>
        match rest with
        | [] => (.arr c (xs.set i v), c + 1)
        | _ =>
          let r := updateT (xs.getD i .undef) rest v (c + 1)
          (.arr c (xs.set i r.1), r.2)
      | none => (.arr c xs, c + 1)
    | _ =>
      let fields := spreadFieldsT json
      let k := segKeyOnObj first
      match rest with
      | [] => (.obj c (writeKey fields k v), c + 1)
      | _ =>
        let r := updateT ((lookupKey fields k).getD .undef) rest v (c + 1)
        (.obj c (writeKey fields k r.1), r.2)

/-- One step of a canonical position inside a document: an array index or
an object key. -/
inductive Slot where
  | aidx (i : Nat)
  | okey (k : String)
deriving DecidableEq, Repr

/-- The subtree at a canonical position. -/
def getH : HJson → List Slot → Option HJson
  | j, [] => some j
  | .arr _ xs, .aidx i :: rest =>
    match xs[i]? with
    | some c => getH c rest
    | none => none
  | .obj _ fs, .okey k :: rest =>
    match lookupKey fs k with
    | some v => getH v rest
    | none => none
  | _, _ :: _ => none

/-- Whether a canonical position lies off the ancestor chain that
update's traversal of the path resolves: the root and every slot the
traversal writes through are on the chain, every sibling slot is off it.
Positions inside the replaced target are on the chain as well, since the
target subtree is precisely what update replaces. -/
def offChain : HJson → List Seg → List Slot → Bool
  | _, _, [] => false
  | _, [], _ :: _ => false
  | json, first :: rest, s :: q =>
    match json with
    | .arr _ xs =>
      match segIndexOnArr xs.length first with
      | some i =>
        if s = .aidx i then
          match rest with
          | [] => false
          | _ => offChain (xs.getD i .undef) rest q
        else true
      | none => true
    | .obj _ fs =>
      if s = .okey (segKeyOnObj first) then
        match rest with
        | [] => false
        | _ => offChain ((lookupKey fs (segKeyOnObj first)).getD .undef) rest q
      else true
    | _ => false

/-! ### Association-list and index lemmas -/

theorem lookupKey_writeKey_same {α : Type} (fs : List (String × α)) (k : String) (v : α) :
    lookupKey (writeKey fs k v) k = some v := by
  induction fs with
  | nil => simp [writeKey, lookupKey]
  | cons p rest ih =>
    obtain ⟨k', v'⟩ := p
    by_cases h : k' = k
    · subst h; simp [writeKey, lookupKey]
    · simp [writeKey, lookupKey, h, ih]

theorem lookupKey_writeKey_other {α : Type} (fs : List (String × α)) (k k' : String) (v : α)
    (h : k' ≠ k) : lookupKey (writeKey fs k v) k' = lookupKey fs k' := by
  induction fs with
  | nil => simp [writeKey, lookupKey, Ne.symm h]
  | cons p rest ih =>
    obtain ⟨k'', v''⟩ := p
    by_cases hh : k'' = k
    · subst hh
      simp [writeKey, lookupKey, Ne.symm h]
    · simp [writeKey, lookupKey, hh, ih]

theorem writeKey_self {α : Type} (fs : List (String × α)) (k : String) (v : α)
    (h : lookupKey fs k = some v) : writeKey fs k v = fs := by
  induction fs with
  | nil => simp [lookupKey] at h
  | cons p rest ih =>
    obtain ⟨k', v'⟩ := p
    by_cases hh : k' = k
    · subst hh
      simp [lookupKey] at h
      simp [writeKey, h]
    · simp [lookupKey, hh] at h
      simp [writeKey, hh, ih h]

theorem set_get?_self {α : Type} (xs : List α) (i : Nat) (v : α)
    (h : xs[i]? = some v) : xs.set i v = xs := by
  induction xs generalizing i with
  | nil => simp at h
  | cons x rest ih =>
    cases i with
    | zero =>
      simp at h
      subst h
      rfl
    | succ n =>
      simp at h
      simp [List.set, ih n h]

theorem segIndexOnArr_lt {len : Nat} {s : Seg} {i : Nat}
    (h : segIndexOnArr len s = some i) : i < len := by
  cases s with
  | idx n =>
    simp only [segIndexOnArr] at h
    split at h
    · rename_i hc
      obtain ⟨h0, hlen⟩ := hc
      cases h
      omega
    · cases h
  | key k =>
    simp only [segIndexOnArr] at h
    split at h
    · rename_i j hc
      split at h
      · cases h; assumption
      · cases h
    · cases h

theorem offChain_undef (P : List Seg) (q : List Slot) : offChain .undef P q = false := by
  cases P <;> cases q <;> simp [offChain]


/-! One-step unfolding lemmas for updateT and getH, stated per container
shape so the preservation proof can rewrite a single level at a time. -/

theorem updateT_arr_none {xs : List HJson} {first : Seg} (aid : Nat) (rest : List Seg)
    (v : HJson) (c : Nat) (h : segIndexOnArr xs.length first = none) :
    updateT (.arr aid xs) (first :: rest) v c = (.arr c xs, c + 1) := by
  cases rest <;> simp [updateT, h]

theorem updateT_arr_some_nil {xs : List HJson} {first : Seg} {i : Nat} (aid : Nat)
    (v : HJson) (c : Nat) (h : segIndexOnArr xs.length first = some i) :
    updateT (.arr aid xs) [first] v c = (.arr c (xs.set i v), c + 1) := by
  simp [updateT, h]

theorem updateT_arr_some_cons {xs : List HJson} {first : Seg} {i : Nat} (aid : Nat)
    (r2 : Seg) (rs : List Seg) (v : HJson) (c : Nat)
    (h : segIndexOnArr xs.length first = some i) :
    updateT (.arr aid xs) (first :: r2 :: rs) v c =
      (.arr c (xs.set i (updateT (xs.getD i .undef) (r2 :: rs) v (c + 1)).1),
       (updateT (xs.getD i .undef) (r2 :: rs) v (c + 1)).2) := by
  simp [updateT, h]

theorem updateT_obj_nil (oid : Nat) (fs : List (String × HJson)) (first : Seg)
    (v : HJson) (c : Nat) :
    updateT (.obj oid fs) [first] v c =
      (.obj c (writeKey fs (segKeyOnObj first) v), c + 1) := rfl

theorem updateT_obj_cons (oid : Nat) (fs : List (String × HJson)) (first r2 : Seg)
    (rs : List Seg) (v : HJson) (c : Nat) :
    updateT (.obj oid fs) (first :: r2 :: rs) v c =
      (.obj c (writeKey fs (segKeyOnObj first)
         (updateT ((lookupKey fs (segKeyOnObj first)).getD .undef) (r2 :: rs) v (c + 1)).1),
       (updateT ((lookupKey fs (segKeyOnObj first)).getD .undef) (r2 :: rs) v (c + 1)).2) := rfl

theorem getH_arr_aidx (aid : Nat) (xs : List HJson) (j : Nat) (q : List Slot) :
    getH (.arr aid xs) (.aidx j :: q) =
      (match xs[j]? with
       | some child => getH child q
       | none => none) := rfl

theorem getH_arr_okey (aid : Nat) (xs : List HJson) (k : String) (q : List Slot) :
    getH (.arr aid xs) (.okey k :: q) = none := rfl

theorem getH_obj_okey (oid : Nat) (fs : List (String × HJson)) (k : String) (q : List Slot) :
    getH (.obj oid fs) (.okey k :: q) =
      (match lookupKey fs k with
       | some v => getH v q
       | none => none) := rfl

theorem getH_obj_aidx (oid : Nat) (fs : List (String × HJson)) (j : Nat) (q : List Slot) :
    getH (.obj oid fs) (.aidx j :: q) = none := rfl

theorem updateT_preserves_offChain (P : List Seg) :
    ∀ (d v : HJson) (c : Nat) (q : List Slot),
      offChain d P q = true →
      getH (updateT d P v c).1 q = getH d q := by
  induction P with
  | nil =>
    intro d v c q h
    cases q <;> simp [offChain] at h
  | cons first rest ih =>
    intro d v c q h
    cases q with
    | nil => simp [offChain] at h
    | cons s q' =>
      cases d with
      | undef => simp [offChain] at h
      | null => simp [offChain] at h
      | boolean b => simp [offChain] at h
      | number n => simp [offChain] at h
      | string str => simp [offChain] at h
      | arr aid xs =>
        cases hidx : segIndexOnArr xs.length first with
        | none =>
          rw [updateT_arr_none aid rest v c hidx]
          cases s with
          | aidx j => rw [getH_arr_aidx, getH_arr_aidx]
          | okey k => rw [getH_arr_okey, getH_arr_okey]
        | some i =>
          have hlt : i < xs.length := segIndexOnArr_lt hidx
          by_cases hs : s = Slot.aidx i
          · subst hs
            cases rest with
            | nil => simp [offChain, hidx] at h
            | cons r2 rs =>
              simp only [offChain, hidx, if_pos rfl] at h
              rw [updateT_arr_some_cons aid r2 rs v c hidx]
              rw [getH_arr_aidx, getH_arr_aidx]
              rw [List.getElem?_set_self hlt]
              have hx : xs[i]? = some (xs.getD i .undef) := by
                rw [List.getD_eq_getElem xs _ hlt, List.getElem?_eq_getElem hlt]
              rw [hx]
              exact ih _ v _ q' h
          · cases rest with
            | nil =>
              rw [updateT_arr_some_nil aid v c hidx]
              cases s with
              | aidx j =>
                have hj : i ≠ j := fun e => hs (by rw [e])
                rw [getH_arr_aidx, getH_arr_aidx, List.getElem?_set_ne hj]
              | okey k => rw [getH_arr_okey, getH_arr_okey]
            | cons r2 rs =>
              rw [updateT_arr_some_cons aid r2 rs v c hidx]
              cases s with
              | aidx j =>
                have hj : i ≠ j := fun e => hs (by rw [e])
                rw [getH_arr_aidx, getH_arr_aidx, List.getElem?_set_ne hj]
              | okey k => rw [getH_arr_okey, getH_arr_okey]
      | obj oid fs =>
        by_cases hs : s = Slot.okey (segKeyOnObj first)
        · subst hs
          cases rest with
          | nil => simp [offChain] at h
          | cons r2 rs =>
            simp only [offChain, if_pos rfl] at h
            rw [updateT_obj_cons oid fs first r2 rs v c]
            rw [getH_obj_okey, getH_obj_okey, lookupKey_writeKey_same]
            cases hl : lookupKey fs (segKeyOnObj first) with
            | none =>
              rw [hl] at h
              simp [offChain_undef] at h
            | some w =>
              rw [hl] at h
              simp at h
              show getH (updateT ((some w).getD HJson.undef) (r2 :: rs) v (c + 1)).1 q' =
                getH w q'
              simp only [Option.getD_some]
              exact ih w v (c + 1) q' h
        · cases rest with
          | nil =>
            rw [updateT_obj_nil oid fs first v c]
            cases s with
            | aidx j => rw [getH_obj_aidx, getH_obj_aidx]
            | okey k =>
              have hk : k ≠ segKeyOnObj first := fun e => hs (by rw [e])
              rw [getH_obj_okey, getH_obj_okey, lookupKey_writeKey_other _ _ _ _ hk]
          | cons r2 rs =>
            rw [updateT_obj_cons oid fs first r2 rs v c]
            cases s with
            | aidx j => rw [getH_obj_aidx, getH_obj_aidx]
            | okey k =>
              have hk : k ≠ segKeyOnObj first := fun e => hs (by rw [e])
              rw [getH_obj_okey, getH_obj_okey, lookupKey_writeKey_other _ _ _ _ hk]

/-! One-step unfolding lemmas for updateJsonAtPath. -/

theorem updateJson_arr_none {xs : List Json} {first : Seg} (rest : List Seg)
    (v : Json) (h : segIndexOnArr xs.length first = none) :
    updateJsonAtPath (.arr xs) (first :: rest) v = .arr xs := by
  cases rest <;> simp [updateJsonAtPath, h]

theorem updateJson_arr_some_nil {xs : List Json} {first : Seg} {i : Nat}
    (v : Json) (h : segIndexOnArr xs.length first = some i) :
    updateJsonAtPath (.arr xs) [first] v = .arr (xs.set i v) := by
  simp [updateJsonAtPath, h]

theorem updateJson_arr_some_cons {xs : List Json} {first : Seg} {i : Nat}
    (r2 : Seg) (rs : List Seg) (v : Json)
    (h : segIndexOnArr xs.length first = some i) :
    updateJsonAtPath (.arr xs) (first :: r2 :: rs) v =
      .arr (xs.set i (updateJsonAtPath (xs.getD i .undef) (r2 :: rs) v)) := by
  simp [updateJsonAtPath, h]

theorem updateJson_obj_nil (fs : List (String × Json)) (first : Seg) (v : Json) :
    updateJsonAtPath (.obj fs) [first] v = .obj (writeKey fs (segKeyOnObj first) v) := rfl

theorem updateJson_obj_cons (fs : List (String × Json)) (first r2 : Seg)
    (rs : List Seg) (v : Json) :
    updateJsonAtPath (.obj fs) (first :: r2 :: rs) v =
      .obj (writeKey fs (segKeyOnObj first)
        (updateJsonAtPath ((lookupKey fs (segKeyOnObj first)).getD .undef) (r2 :: rs) v)) := rfl

/-- Writing back the value a valid path already addresses reproduces the
document, structurally. -/
theorem update_get_roundtrip (P : List Seg) :
    ∀ (D v : Json), getAtPath D P = some v → updateJsonAtPath D P v = D := by
  induction P with
  | nil =>
    intro D v h
    simp [getAtPath] at h
    subst h
    rfl
  | cons first rest ih =>
    intro D v h
    cases D with
    | undef => simp [getAtPath] at h
    | null => simp [getAtPath] at h
    | boolean b => simp [getAtPath] at h
    | number n => simp [getAtPath] at h
    | string s => simp [getAtPath] at h
    | arr xs =>
      cases first with
      | key k => simp [getAtPath] at h
      | idx i =>
        simp only [getAtPath] at h
        split at h
        · rename_i hpos
          cases hx : xs[i.toNat]? with
          | none => rw [hx] at h; cases h
          | some child =>
            rw [hx] at h
            have hlt : i.toNat < xs.length := by
              have := List.getElem?_eq_some_iff.mp hx
              exact this.1
            have hidx : segIndexOnArr xs.length (Seg.idx i) = some i.toNat := by
              simp only [segIndexOnArr, if_pos (And.intro hpos (by omega : i < (xs.length : Int)))]
            cases rest with
            | nil =>
              simp only [getAtPath] at h
              cases h
              rw [updateJson_arr_some_nil _ hidx, set_get?_self _ _ _ hx]
            | cons r2 rs =>
              rw [updateJson_arr_some_cons r2 rs v hidx]
              have hgd : xs.getD i.toNat Json.undef = child := by
                rw [List.getD_eq_getElem xs _ hlt]
                have := List.getElem?_eq_some_iff.mp hx
                exact this.2.symm ▸ rfl
              rw [hgd, ih child v h, set_get?_self _ _ _ hx]
        · cases h
    | obj fs =>
      cases first with
      | idx i => simp [getAtPath] at h
      | key k =>
        simp only [getAtPath] at h
        cases hl : lookupKey fs k with
        | none => rw [hl] at h; cases h
        | some child =>
          rw [hl] at h
          cases rest with
          | nil =>
            simp only [getAtPath] at h
            cases h
            rw [updateJson_obj_nil]
            show Json.obj (writeKey fs k v) = Json.obj fs
            rw [writeKey_self fs k v hl]
          | cons r2 rs =>
            rw [updateJson_obj_cons]
            show Json.obj (writeKey fs k
              (updateJsonAtPath ((lookupKey fs k).getD .undef) (r2 :: rs) v)) = Json.obj fs
            rw [hl]
            simp only [Option.getD_some]
            rw [ih child v h, writeKey_self fs k child hl]

/-! ### Bracket-decomposition of the path formatter -/

theorem join_cons (y : String) (ys : List String) :
    String.join (y :: ys) = y ++ String.join ys := by
  apply String.ext
  simp [String.join_eq]

theorem bracket_pair_split (x : String) : ("][" : String) ++ x = "]" ++ ("[" ++ x) := by
  rw [← String.append_assoc]
  rfl

theorem dollar_bracket_split (x : String) : ("$[" : String) ++ x = "$" ++ ("[" ++ x) := by
  rw [← String.append_assoc]
  rfl

theorem intercalate_go_bracket (xs : List String) :
    ∀ acc : String,
      String.intercalate.go acc "][" xs ++ "]" =
        acc ++ "]" ++ String.join (xs.map fun s => "[" ++ s ++ "]") := by
  induction xs with
  | nil =>
    intro acc
    simp [String.intercalate.go, String.join]
  | cons a as ih =>
    intro acc
    show String.intercalate.go (acc ++ "][" ++ a) "][" as ++ "]" = _
    rw [ih (acc ++ "][" ++ a), List.map_cons, join_cons]
    simp [String.append_assoc, bracket_pair_split]

theorem jsonPathToString_eq_join (p : List Seg) :
    jsonPathToString p =
      "$" ++ String.join (p.map fun s => "[" ++ segToDisplay s ++ "]") := by
  cases p with
  | nil => simp [jsonPathToString, String.join]
  | cons a as =>
    show "$[" ++ String.intercalate "][" (segToDisplay a :: as.map segToDisplay) ++ "]" = _
    show "$[" ++ String.intercalate.go (segToDisplay a) "][" (as.map segToDisplay) ++ "]" = _
    rw [String.append_assoc, intercalate_go_bracket _ (segToDisplay a)]
    rw [List.map_cons, join_cons]
    simp [String.append_assoc, dollar_bracket_split, List.map_map, Function.comp_def]

/-! ### Claim theorems -/

/-- C8: jsonPathToString is total and pure, maps the empty path to the
dollar-sign string, and maps every path to the dollar sign followed by
one bracketed group per segment in path order, integer segments rendered
bare and string segments rendered quoted; in particular the empty path
gives the dollar sign alone and the example path renders as
a quoted key, a bare index, and a quoted key. -/
theorem C8_path_formatting :
    jsonPathToString [] = "$" ∧
    (∀ p : List Seg, jsonPathToString p =
      "$" ++ String.join (p.map fun s => "[" ++ segToDisplay s ++ "]")) ∧
    (∀ i : Int, segToDisplay (.idx i) = toString i) ∧
    (∀ s : String, segToDisplay (.key s) = "\"" ++ s ++ "\"") ∧
    jsonPathToString [.key "a", .idx 0, .key "b"] = "$[\"a\"][0][\"b\"]" :=
  ⟨rfl, jsonPathToString_eq_join, fun _ => rfl, fun _ => rfl, rfl⟩

/-- C10: jsonPathToString performs no escaping on string segments: a
string segment renders as a double quote, the segment text verbatim, and
a double quote, so a segment containing a quote or bracket puts that
character into the output unescaped. -/
theorem C10_no_escaping :
    (∀ s : String, segToDisplay (.key s) = "\"" ++ s ++ "\"") ∧
    (∀ p : List Seg, jsonPathToString p =
      "$" ++ String.join (p.map fun s => "[" ++ segToDisplay s ++ "]")) ∧
    jsonPathToString [.key "a\"b"] = "$[\"a\"b\"]" ∧
    jsonPathToString [.key "x]y"] = "$[\"x]y\"]" :=
  ⟨fun _ => rfl, jsonPathToString_eq_join, rfl, rfl⟩

theorem buildObjStep_skip (acc : List (String × Json)) (r : DisplayRow)
    (h : rowKept r = false) : buildObjStep acc r = acc := by
  unfold buildObjStep
  unfold rowKept rowKeyTruthy at h
  split
  · rfl
  · rename_i ht
    cases hk : r.key with
    | none => rfl
    | some k =>
      rw [hk] at h
      simp only [ht, Bool.not_false, Bool.true_and] at h
      simp only [decide_eq_false_iff_not, Decidable.not_not] at h
      simp [h]

theorem buildObjStep_keep (acc : List (String × Json)) (r : DisplayRow) (k : String)
    (hk : r.key = some k) (h : rowKept r = true) :
    buildObjStep acc r = writeKey acc k r.value := by
  unfold rowKept rowKeyTruthy at h
  rw [hk] at h
  simp only [Bool.and_eq_true, Bool.not_eq_true', decide_eq_true_eq] at h
  obtain ⟨ht, hne⟩ := h
  unfold buildObjStep
  rw [ht, hk]
  simp [hne]

theorem buildObj_foldl_filter (rows : List DisplayRow) :
    ∀ acc : List (String × Json),
      rows.foldl buildObjStep acc = (rows.filter rowKept).foldl buildObjStep acc := by
  induction rows with
  | nil => intro acc; rfl
  | cons r rest ih =>
    intro acc
    cases hk : rowKept r with
    | true => simp [List.filter_cons, hk, List.foldl_cons, ih]
    | false =>
      simp only [List.filter_cons, hk, Bool.false_eq_true, if_false, List.foldl_cons]
      rw [buildObjStep_skip acc r hk, ih]

/-- Rows skipped by the fold do not influence the mapping. -/
theorem buildObj_eq_filter (rows : List DisplayRow) :
    buildObj rows = buildObj (rows.filter rowKept) := by
  unfold buildObj
  exact buildObj_foldl_filter rows []

theorem mem_writeKey {α : Type} (fs : List (String × α)) (k : String) (v : α) :
    ∀ p ∈ writeKey fs k v, p = (k, v) ∨ p ∈ fs := by
  induction fs with
  | nil =>
    intro p hp
    simp [writeKey] at hp
    left
    exact hp
  | cons q rest ih =>
    obtain ⟨k', v'⟩ := q
    intro p hp
    unfold writeKey at hp
    by_cases h : k' = k
    · rw [if_pos h] at hp
      rcases List.mem_cons.mp hp with h1 | h2
      · left; exact h1
      · right; exact List.mem_cons_of_mem _ h2
    · rw [if_neg h] at hp
      rcases List.mem_cons.mp hp with h1 | h2
      · right
        rw [h1]
        exact List.mem_cons_self _ _
      · rcases ih p h2 with h3 | h4
        · left; exact h3
        · right; exact List.mem_cons_of_mem _ h4

theorem buildObj_aux_keys (rows : List DisplayRow) :
    ∀ acc : List (String × Json), (∀ p ∈ acc, p.1 ≠ "") →
      ∀ p ∈ rows.foldl buildObjStep acc, p.1 ≠ "" := by
  induction rows with
  | nil =>
    intro acc hacc p hp
    exact hacc p hp
  | cons r rest ih =>
    intro acc hacc p hp
    rw [List.foldl_cons] at hp
    refine ih (buildObjStep acc r) ?_ p hp
    intro q hq
    unfold buildObjStep at hq
    split at hq
    · exact hacc q hq
    · cases hk : r.key with
      | none =>
        rw [hk] at hq
        exact hacc q hq
      | some k =>
        rw [hk] at hq
        change q ∈ (if k = "" then acc else writeKey acc k r.value) at hq
        by_cases hke : k = ""
        · rw [if_pos hke] at hq
          exact hacc q hq
        · rw [if_neg hke] at hq
          rcases mem_writeKey acc k r.value q hq with h1 | h2
          · rw [h1]
            exact hke
          · exact hacc q h2

/-- C7: normalizeNodeData returns the literal braces for the empty row
list, the value's plain textual form for a single keyless row, and
otherwise the pretty-printed 2-space-indent JSON of the ordered mapping
folded from the rows, where rows of type array or object and rows
without a truthy key are skipped. -/
theorem C7_normalize_cases :
    normalizeNodeData [] = "\x7b\x7d" ∧
    (∀ r : DisplayRow, rowKeyTruthy r = false →
      normalizeNodeData [r] = jsToDisplayString r.value) ∧
    (∀ (r : DisplayRow) (rs : List DisplayRow), rs ≠ [] ∨ rowKeyTruthy r = true →
      normalizeNodeData (r :: rs) =
        (stringifyVal (Json.obj (buildObj (r :: rs))) 0).getD "undefined") ∧
    (∀ rows : List DisplayRow, buildObj rows = buildObj (rows.filter rowKept)) := by
  refine ⟨rfl, ?_, ?_, buildObj_eq_filter⟩
  · intro r h
    simp [normalizeNodeData, h]
  · intro r rs h
    cases rs with
    | nil =>
      rcases h with h1 | h2
      · exact absurd rfl h1
      · simp [normalizeNodeData, h2]
    | cons r2 rs2 => rfl

/-- Witness for C7 at concrete rows: a single keyless boolean row renders
bare, and a two-row list renders as the serialized mapping. -/
theorem C7_witness :
    rowKeyTruthy ⟨none, Json.boolean true, "boolean"⟩ = false ∧
    normalizeNodeData [⟨none, Json.boolean true, "boolean"⟩] = "true" ∧
    normalizeNodeData [⟨some "a", Json.null, "null"⟩, ⟨some "b", Json.arr [], "array"⟩] =
      (stringifyVal (Json.obj (buildObj [⟨some "a", Json.null, "null"⟩,
        ⟨some "b", Json.arr [], "array"⟩])) 0).getD "undefined" :=
  ⟨rfl, C7_normalize_cases.2.1 ⟨none, Json.boolean true, "boolean"⟩ rfl,
    C7_normalize_cases.2.2.1 _ _ (Or.inl (by simp))⟩

/-- C9: an empty-string key behaves exactly like an absent key: the
single-row form renders the bare value either way, and no key of the
folded mapping is ever the empty string. -/
theorem C9_empty_key_like_absent :
    (∀ (v : Json) (t : String),
      normalizeNodeData [⟨some "", v, t⟩] = normalizeNodeData [⟨none, v, t⟩]) ∧
    (∀ rows : List DisplayRow, ∀ p ∈ buildObj rows, p.1 ≠ "") := by
  constructor
  · intro v t
    rfl
  · intro rows p hp
    exact buildObj_aux_keys rows [] (by intro q hq; cases hq) p hp

/-- Witness for C9: a concrete member of a concrete folded mapping has a
nonempty key. -/
theorem C9_witness :
    ("a", Json.null) ∈ buildObj [⟨some "a", Json.null, "null"⟩] ∧ ("a" : String) ≠ "" := by
  have hmem : ("a", Json.null) ∈ buildObj [⟨some "a", Json.null, "null"⟩] := by
    show ("a", Json.null) ∈ [("a", Json.null)]
    exact List.mem_singleton.mpr rfl
  exact ⟨hmem, C9_empty_key_like_absent.2 _ _ hmem⟩

/-- Counterexample to C1 as stated: at a shape mismatch (integer segment,
mapping container) updateJsonAtPath does not leave the branch unchanged;
it inserts the key 0 into the empty object. -/
theorem C1_counterexample :
    updateJsonAtPath (Json.obj []) [Seg.idx 0] (Json.number (.fin 7)) =
      Json.obj [("0", Json.number (.fin 7))] ∧
    updateJsonAtPath (Json.obj []) [Seg.idx 0] (Json.number (.fin 7)) ≠ Json.obj [] := by
  refine ⟨rfl, ?_⟩
  rw [show updateJsonAtPath (Json.obj []) [Seg.idx 0] (Json.number (.fin 7)) =
    Json.obj [("0", Json.number (.fin 7))] from rfl]
  simp

/-- C1 as amended: the silent no-op of the edge-case policy holds on the
array side: when the current container is an array, the branch is
returned unchanged whatever the rest of the path — no error, no growth
of the array, no intermediate containers — for an out-of-range integer
index and, more generally, for every first segment that fails the
source's bounds test or names no in-range array index (such as a
non-numeric string key on the array); and the bounds scenario of the
spec holds.  The two mismatches in the other direction are not no-ops:
a numeric segment meeting a mapping sets the property named by the
decimal coercion of the index, and a segment whose target level holds a
scalar replaces that scalar with a fresh mapping containing the written
entry — empty apart from that entry for undefined, null, boolean and
number scalars, and holding the index-keyed characters besides it for a
string scalar. -/
theorem C1_bounds_noop_amended :
    (∀ (xs : List Json) (i : Int) (rest : List Seg) (v : Json),
      ¬ (0 ≤ i ∧ i < (xs.length : Int)) →
      updateJsonAtPath (.arr xs) (.idx i :: rest) v = .arr xs) ∧
    (∀ (xs : List Json) (first : Seg) (rest : List Seg) (v : Json),
      segIndexOnArr xs.length first = none →
      updateJsonAtPath (.arr xs) (first :: rest) v = .arr xs) ∧
    (∀ (fs : List (String × Json)) (i : Int) (v : Json),
      updateJsonAtPath (.obj fs) [.idx i] v = .obj (writeKey fs (toString i) v)) ∧
    (∀ (j : Json) (first : Seg) (v : Json),
      (j = .undef ∨ j = .null ∨ (∃ b, j = .boolean b) ∨ (∃ n, j = .number n)) →
      updateJsonAtPath j [first] v = .obj [(segKeyOnObj first, v)]) ∧
    (∀ (s : String) (first : Seg) (v : Json),
      updateJsonAtPath (.string s) [first] v =
        .obj (writeKey (spreadFields (.string s)) (segKeyOnObj first) v)) ∧
    updateJsonAtPath
      (Json.obj [("a", Json.arr [Json.number (.fin 1), Json.number (.fin 2)])])
      [Seg.key "a", Seg.idx 5] (Json.number (.fin 7)) =
      Json.obj [("a", Json.arr [Json.number (.fin 1), Json.number (.fin 2)])] := by
  refine ⟨?_, ?_, fun fs i v => rfl, ?_, fun s first v => rfl, rfl⟩
  · intro xs i rest v h
    have hnone : segIndexOnArr xs.length (Seg.idx i) = none := by
      simp only [segIndexOnArr, if_neg h]
    exact updateJson_arr_none rest v hnone
  · intro xs first rest v h
    exact updateJson_arr_none rest v h
  · intro j first v h
    rcases h with h | h | ⟨b, h⟩ | ⟨n, h⟩ <;> subst h <;> rfl

/-- Witness for the amended C1, exercising each hypothesis at concrete
inputs: an out-of-bounds integer index and a non-numeric string key on a
one-element array are both no-ops, and a number scalar at the target is
replaced by the singleton mapping. -/
theorem C1_witness :
    (¬ ((0 : Int) ≤ 5 ∧ (5 : Int) < (([Json.null].length : Nat) : Int))) ∧
    updateJsonAtPath (.arr [Json.null]) [.idx 5] (Json.boolean true) = .arr [Json.null] ∧
    segIndexOnArr [Json.null].length (Seg.key "a") = none ∧
    updateJsonAtPath (.arr [Json.null]) [.key "a"] (Json.boolean true) = .arr [Json.null] ∧
    updateJsonAtPath (Json.number (.fin 3)) [.key "x"] Json.null =
      .obj [("x", Json.null)] := by
  refine ⟨by decide, ?_, by decide, ?_, ?_⟩
  · exact C1_bounds_noop_amended.1 [Json.null] 5 [] (Json.boolean true) (by decide)
  · exact C1_bounds_noop_amended.2.1 [Json.null] (Seg.key "a") [] (Json.boolean true)
      (by decide)
  · exact C1_bounds_noop_amended.2.2.2.1 (Json.number (.fin 3)) (Seg.key "x") Json.null
      (Or.inr (Or.inr (Or.inr ⟨.fin 3, rfl⟩)))

/-- C4: writing back the value a valid path already addresses reproduces
the document structurally; the empty path returns the new value itself,
and in particular replacing the whole example document with 42 yields
42. -/
theorem C4_roundtrip :
    (∀ (D : Json) (P : List Seg) (v : Json),
      getAtPath D P = some v → updateJsonAtPath D P v = D) ∧
    (∀ (D V : Json), updateJsonAtPath D [] V = V) ∧
    updateJsonAtPath (Json.obj [("x", Json.number (.fin 1))]) []
      (Json.number (.fin 42)) = Json.number (.fin 42) :=
  ⟨fun D P v h => update_get_roundtrip P D v h, fun _ _ => rfl, rfl⟩

/-- Witness for C4 at a concrete document and valid path. -/
theorem C4_witness :
    getAtPath (Json.obj [("a", Json.arr [Json.boolean true, Json.null])])
      [Seg.key "a", Seg.idx 1] = some Json.null ∧
    updateJsonAtPath (Json.obj [("a", Json.arr [Json.boolean true, Json.null])])
      [Seg.key "a", Seg.idx 1] Json.null =
      Json.obj [("a", Json.arr [Json.boolean true, Json.null])] :=
  ⟨rfl, C4_roundtrip.1 _ _ _ rfl⟩

/-- C5: a successful full JSON parse always wins and its value is
returned as-is, and the five precedence examples behave as specified:
the quoted digit is a string, the bare digit a number, the bare keyword
a boolean, the bare word a string, and the object literal an object. -/
theorem C5_coercion_precedence :
    (∀ (t : String) (v : Json), jsonParse t = some v → coerce t = .ok v) ∧
    coerce "\"5\"" = .ok (.string "5") ∧
    coerce "5" = .ok (.number (.fin 5)) ∧
    coerce "true" = .ok (.boolean true) ∧
    coerce "banana" = .ok (.string "banana") ∧
    coerce "\x7b\"a\":1\x7d" = .ok (.obj [("a", .number (.fin 1))]) := by
  refine ⟨?_, rfl, ?_, rfl, rfl, ?_⟩
  · intro t v h
    simp [coerce, h]
  · have h : (5 : ℚ) = decToRat false ['5'] [] 0 := by
      norm_num [decToRat, digitsToNat, pow10, show '5'.toNat = 53 from by decide]
    rw [h]
    rfl
  · have h : (1 : ℚ) = decToRat false ['1'] [] 0 := by
      norm_num [decToRat, digitsToNat, pow10, show '1'.toNat = 49 from by decide]
    rw [h]
    rfl

/-- Witness for C5: a concrete successful parse is returned as-is. -/
theorem C5_witness :
    jsonParse "[true]" = some (Json.arr [Json.boolean true]) ∧
    coerce "[true]" = .ok (Json.arr [Json.boolean true]) :=
  ⟨rfl, C5_coercion_precedence.1 "[true]" _ rfl⟩

/-- Counterexample to C2 as stated: coerce is not total.  On the input
consisting of a single double-quote character the full parse fails, the
trimmed text starts and ends with a quote, and the quoted-string rung
re-enters JSON.parse, whose failure escapes as an error. -/
theorem C2_counterexample : coerce "\"" = .error () := rfl

/-- C2 as amended: coerce fails exactly when the full parse fails, the
trimmed text starts and ends with a double quote, and the re-parse of
the trimmed text fails too; on every other input it returns a value, and
when no earlier interpretation applies it returns the trimmed text
verbatim as a string. -/
theorem C2_totality_amended :
    (∀ t : String,
      (coerce t).isOk = false ↔
        ((jsonParse t).isSome = false ∧
         (strStartsWithChar (jsTrim t) '"' && strEndsWithChar (jsTrim t) '"') = true ∧
         (jsonParse (jsTrim t)).isSome = false)) ∧
    (∀ t : String,
      (jsonParse t).isSome = false →
      (strStartsWithChar (jsTrim t) '"' && strEndsWithChar (jsTrim t) '"') = false →
      jsTrim t ≠ "null" → jsTrim t ≠ "true" → jsTrim t ≠ "false" →
      (jsStrToNum (jsTrim t) = .nan ∨ jsTrim t = "") →
      coerce t = .ok (.string (jsTrim t))) := by
  constructor
  · intro t
    cases hp : jsonParse t with
    | some v => simp [coerce, hp, Except.isOk, Except.toBool]
    | none =>
      by_cases hq :
          (strStartsWithChar (jsTrim t) '"' && strEndsWithChar (jsTrim t) '"') = true
      · cases hp2 : jsonParse (jsTrim t) with
        | some v => simp [coerce, hp, hq, hp2, Except.isOk, Except.toBool]
        | none => simp [coerce, hp, hq, hp2, Except.isOk, Except.toBool]
      · rw [Bool.not_eq_true] at hq
        simp only [coerce, hp, hq, Bool.false_eq_true, if_false]
        constructor
        · intro hcontr
          split at hcontr <;> try (cases hcontr)
          split at hcontr <;> try (cases hcontr)
          split at hcontr <;> try (cases hcontr)
          split at hcontr <;> cases hcontr
        · intro ⟨_, hcontr, _⟩
          cases hcontr
  · intro t hp hq h1 h2 h3 h4
    have hpn : jsonParse t = none := by
      cases hpe : jsonParse t with
      | some v => rw [hpe] at hp; cases hp
      | none => rfl
    simp only [coerce, hpn, hq, Bool.false_eq_true, if_false, if_neg h1, if_neg h2, if_neg h3]
    rw [if_neg]
    intro ⟨hnan, hne⟩
    rcases h4 with h5 | h5
    · exact hnan h5
    · exact hne h5

/-- Witness for the amended C2: a concrete bare phrase coerces to itself
as a string. -/
theorem C2_witness :
    coerce "apple pie" = .ok (.string (jsTrim "apple pie")) :=
  C2_totality_amended.2 "apple pie" (by decide) (by decide) (by decide) (by decide)
    (by decide) (by decide)

/-- Counterexample to C6 as stated: the fallback coerces the
non-finite-valued text Infinity to the Number Infinity, because the
source tests Number(trimmed) against NaN rather than against
finiteness, instead of returning the text verbatim as a string. -/
theorem C6_counterexample :
    coerce "Infinity" = .ok (.number .posInf) ∧
    Json.number .posInf ≠ .string "Infinity" := by
  refine ⟨rfl, ?_⟩
  intro h
  cases h

/-- C6 as amended: once the earlier rungs have failed, the trimmed text
is coerced to a Number exactly when Number(trimmed) is not NaN and the
text is nonempty — a test that also admits the non-finite infinities —
and every other text is returned as the trimmed text verbatim, an
unquoted string. -/
theorem C6_fallback_number_amended :
    ∀ t : String,
      (jsonParse t).isSome = false →
      (strStartsWithChar (jsTrim t) '"' && strEndsWithChar (jsTrim t) '"') = false →
      jsTrim t ≠ "null" → jsTrim t ≠ "true" → jsTrim t ≠ "false" →
      ((jsStrToNum (jsTrim t) ≠ .nan ∧ jsTrim t ≠ "") →
        coerce t = .ok (.number (jsStrToNum (jsTrim t)))) ∧
      ((jsStrToNum (jsTrim t) = .nan ∨ jsTrim t = "") →
        coerce t = .ok (.string (jsTrim t))) := by
  intro t hp hq h1 h2 h3
  have hpn : jsonParse t = none := by
    cases hpe : jsonParse t with
    | some v => rw [hpe] at hp; cases hp
    | none => rfl
  constructor
  · intro hnum
    simp only [coerce, hpn, hq, Bool.false_eq_true, if_false, if_neg h1, if_neg h2,
      if_neg h3, if_pos hnum]
  · intro h4
    simp only [coerce, hpn, hq, Bool.false_eq_true, if_false, if_neg h1, if_neg h2, if_neg h3]
    rw [if_neg]
    intro ⟨hnan, hne⟩
    rcases h4 with h5 | h5
    · exact hnan h5
    · exact hne h5

/-- Witness for the amended C6: a concrete decimal reaches the number
rung and comes back as a Number. -/
theorem C6_witness :
    jsStrToNum (jsTrim "\u000B12.5") ≠ .nan ∧
    coerce "\u000B12.5" = .ok (.number (jsStrToNum (jsTrim "\u000B12.5"))) :=
  ⟨by decide, (C6_fallback_number_amended "\u000B12.5" (by decide) (by decide) (by decide)
    (by decide) (by decide)).1 (by decide)⟩

/-- C3: locality and structural sharing of updateJsonAtPath, over the
identity-instrumented run of the same algorithm: every subtree at a
canonical position off the resolved ancestor chain of the path — not an
ancestor slot the traversal writes through and not inside the replaced
target — reappears in the output identically, allocation identity
included, so it is the very node of the input document and the input is
never mutated or rebuilt there, whatever the path, value and allocation
counter. -/
theorem C3_locality_sharing :
    ∀ (d v : HJson) (P : List Seg) (c : Nat) (q : List Slot),
      offChain d P q = true →
      getH (updateT d P v c).1 q = getH d q :=
  fun d v P c q h => updateT_preserves_offChain P d v c q h

/-- A small two-field document with identities, for the sharing
witness. -/
def sampleDocH : HJson :=
  .obj 0 [("a", .arr 1 [.number (.fin 1), .string "s"]), ("b", .null)]

/-- Witness for C3: the sibling element of the updated slot is preserved
with its identity in a concrete run. -/
theorem C3_witness :
    offChain sampleDocH [Seg.key "a", Seg.idx 0] [Slot.okey "a", Slot.aidx 1] = true ∧
    getH (updateT sampleDocH [Seg.key "a", Seg.idx 0] (HJson.boolean true) 10).1
        [Slot.okey "a", Slot.aidx 1] =
      getH sampleDocH [Slot.okey "a", Slot.aidx 1] :=
  ⟨by decide, C3_locality_sharing sampleDocH (HJson.boolean true) _ 10 _ (by decide)⟩
